import Mathlib

/-!
Verification of the configuration adapter layer
(`packages/rspack/src/config/adapter.ts`): the recursive rule-set
condition encoder, the logical-combinator encoder, the module-rule
compiler, the module-tree compiler, the optimization / split-chunks
encoder and the scalar section encoders.

JavaScript values are shallowly embedded: `undefined` / possibly-absent
fields become `Option`, thrown exceptions (`throw new Error`, failed
`assert`) become `Except.error` carrying the message string, and JS
truthiness tests on condition values are modelled by an explicit
`truthy` function.
-/

namespace Rspack

/-- A runtime value usable as a rule-set condition: a string, a RegExp
(with its `source` and `flags`), an array of conditions, a plain object
with optional `and` / `or` / `not` keys (a logical combination), or any
other runtime value (`other`, carrying only its JS truthiness) such as
`null`, a number or a boolean, which none of the four recognized shapes
cover. -/
inductive RuleSetCondition : Type where
  | str : String → RuleSetCondition
  | regexp : (source : String) → (flags : String) → RuleSetCondition
  | arr : List RuleSetCondition → RuleSetCondition
  | logical : (and or : Option (List RuleSetCondition)) →
      (not : Option RuleSetCondition) → RuleSetCondition
  | other : (truthy : Bool) → RuleSetCondition

/-- JavaScript truthiness of a condition value: the empty string is
falsy, every other string is truthy, a RegExp, an array and a plain
object are always truthy, and an `other` value carries its own
truthiness (e.g. `null` and `0` are falsy, a nonzero number truthy). -/
def RuleSetCondition.truthy : RuleSetCondition → Bool
  | .str s => !(s == "")
  | .regexp _ _ => true
  | .arr _ => true
  | .logical _ _ _ => true
  | .other t => t

mutual
/-- The raw (engine-facing) rule-set condition: a tagged variant with
exactly the one payload field matching its discriminant
(`stringMatcher`, `regexpMatcher`, `arrayMatcher`, `logicalMatcher`). -/
inductive RawRuleSetCondition : Type where
  | string : (stringMatcher : String) → RawRuleSetCondition
  | regexp : (regexpMatcher : String) → RawRuleSetCondition
  | array : (arrayMatcher : List RawRuleSetCondition) → RawRuleSetCondition
  | logical : (logicalMatcher : List RawRuleSetLogicalConditions) →
      RawRuleSetCondition

/-- The raw logical-combination record with its three optional keys. -/
inductive RawRuleSetLogicalConditions : Type where
  | mk : (and or : Option (List RawRuleSetCondition)) →
      (not : Option RawRuleSetCondition) → RawRuleSetLogicalConditions
end

def RawRuleSetLogicalConditions.and :
    RawRuleSetLogicalConditions → Option (List RawRuleSetCondition)
  | .mk a _ _ => a

def RawRuleSetLogicalConditions.or :
    RawRuleSetLogicalConditions → Option (List RawRuleSetCondition)
  | .mk _ o _ => o

def RawRuleSetLogicalConditions.not :
    RawRuleSetLogicalConditions → Option RawRuleSetCondition
  | .mk _ _ n => n

/-- The message of the `throw new Error(...)` reached when a condition
is none of the four recognized shapes. -/
def conditionUnreachableMessage : String :=
  "unreachable: condition should be one of string, RegExp, Array, Object"

mutual
/-- Embedding of `getRawRuleSetCondition`: a string becomes the string
variant, a RegExp the regexp variant carrying only `condition.source`
(flags dropped), an array the array variant with element-wise encoding,
a plain object the logical variant wrapping the encoded logical object
in a single-element list, and anything else throws. -/
def getRawRuleSetCondition :
    RuleSetCondition → Except String RawRuleSetCondition
  | .str s => .ok (.string s)
  | .regexp source _flags => .ok (.regexp source)
  | .arr elems =>
      (encodeConditionList elems).map RawRuleSetCondition.array
  | .logical a o n =>
      (getRawRuleSetLogicalConditions a o n).map
        (fun l => RawRuleSetCondition.logical [l])
  | .other _ => .error conditionUnreachableMessage
termination_by c => sizeOf c

/-- `condition.map(i => getRawRuleSetCondition(i))` on an array of
conditions, with the first thrown error propagating. -/
def encodeConditionList :
    List RuleSetCondition → Except String (List RawRuleSetCondition)
  | [] => .ok []
  | c :: cs => do
      let r ← getRawRuleSetCondition c
      let rs ← encodeConditionList cs
      pure (r :: rs)
termination_by cs => sizeOf cs

/-- `logical.and ? logical.and.map(i => getRawRuleSetCondition(i)) :
undefined`: an absent list stays absent (a present list, even empty, is
truthy in JS and is encoded element-wise). -/
def encodeOptConditionList :
    Option (List RuleSetCondition) →
      Except String (Option (List RawRuleSetCondition))
  | none => .ok none
  | some xs => (encodeConditionList xs).map some
termination_by o => sizeOf o

/-- The JS guard `cond ? getRawRuleSetCondition(cond) : undefined`, as
used for each optional condition field of a rule and for the `not` key
of a logical object: absent or falsy (empty-string) conditions are
omitted, truthy ones encoded. -/
def encodeCondField :
    Option RuleSetCondition → Except String (Option RawRuleSetCondition)
  | none => .ok none
  | some c =>
      if c.truthy then (getRawRuleSetCondition c).map some else .ok none
termination_by x => sizeOf x

/-- Embedding of `getRawRuleSetLogicalConditions`: the `and` and `or`
lists are encoded element-wise when present, and `logical.not ?
getRawRuleSetCondition(logical.not) : undefined` encodes the `not`
child only when it is truthy (so an empty-string `not` is dropped). -/
def getRawRuleSetLogicalConditions
    (a o : Option (List RuleSetCondition)) (n : Option RuleSetCondition) :
    Except String RawRuleSetLogicalConditions := do
  let ra ← encodeOptConditionList a
  let ro ← encodeOptConditionList o
  let rn ← encodeCondField n
  pure (.mk ra ro rn)
termination_by sizeOf a + sizeOf o + sizeOf n
decreasing_by
  all_goals simp_wf
  · have ho : 0 < sizeOf o := by cases o <;> simp_arith
    have hn : 0 < sizeOf n := by cases n <;> simp_arith
    omega
  · have ha : 0 < sizeOf a := by cases a <;> simp_arith
    have hn : 0 < sizeOf n := by cases n <;> simp_arith
    omega
  · have ha : 0 < sizeOf a := by cases a <;> simp_arith
    omega
end

/-- A module rule: six optional condition fields, passthrough fields
(`sideEffects`, `type`, `parser`, `generator`, `resolve` — the latter
three of an opaque payload type `π`, like the loader-chain field
`use`), and an optional ordered list of `oneOf` sub-rules. -/
inductive RuleSetRule (π : Type) : Type where
  | mk : (test include_ exclude resource resourceQuery issuer :
        Option RuleSetCondition) →
      (sideEffects : Option Bool) → (use : Option π) →
      (type : Option String) → (parser generator resolve : Option π) →
      (oneOf : Option (List (RuleSetRule π))) → RuleSetRule π

/-- The raw module rule handed to the engine, with `use` always present
(of the opaque encoded-chain type `ρ`). Field order follows the object
literal in `getRawModuleRule`. -/
inductive RawModuleRule (π ρ : Type) : Type where
  | mk : (test include_ exclude resource resourceQuery :
        Option RawRuleSetCondition) →
      (sideEffects : Option Bool) → (use : ρ) → (type : Option String) →
      (parser generator resolve : Option π) →
      (issuer : Option RawRuleSetCondition) →
      (oneOf : Option (List (RawModuleRule π ρ))) → RawModuleRule π ρ

def RuleSetRule.test {π : Type} : RuleSetRule π → Option RuleSetCondition
  | .mk t _ _ _ _ _ _ _ _ _ _ _ _ => t

def RuleSetRule.include_ {π : Type} : RuleSetRule π → Option RuleSetCondition
  | .mk _ i _ _ _ _ _ _ _ _ _ _ _ => i

def RuleSetRule.exclude {π : Type} : RuleSetRule π → Option RuleSetCondition
  | .mk _ _ e _ _ _ _ _ _ _ _ _ _ => e

def RuleSetRule.resource {π : Type} : RuleSetRule π → Option RuleSetCondition
  | .mk _ _ _ r _ _ _ _ _ _ _ _ _ => r

def RuleSetRule.resourceQuery {π : Type} :
    RuleSetRule π → Option RuleSetCondition
  | .mk _ _ _ _ rq _ _ _ _ _ _ _ _ => rq

def RuleSetRule.issuer {π : Type} : RuleSetRule π → Option RuleSetCondition
  | .mk _ _ _ _ _ iss _ _ _ _ _ _ _ => iss

def RuleSetRule.sideEffects {π : Type} : RuleSetRule π → Option Bool
  | .mk _ _ _ _ _ _ se _ _ _ _ _ _ => se

def RuleSetRule.use {π : Type} : RuleSetRule π → Option π
  | .mk _ _ _ _ _ _ _ u _ _ _ _ _ => u

def RuleSetRule.type {π : Type} : RuleSetRule π → Option String
  | .mk _ _ _ _ _ _ _ _ ty _ _ _ _ => ty

def RuleSetRule.parser {π : Type} : RuleSetRule π → Option π
  | .mk _ _ _ _ _ _ _ _ _ p _ _ _ => p

def RuleSetRule.generator {π : Type} : RuleSetRule π → Option π
  | .mk _ _ _ _ _ _ _ _ _ _ g _ _ => g

def RuleSetRule.resolve {π : Type} : RuleSetRule π → Option π
  | .mk _ _ _ _ _ _ _ _ _ _ _ rv _ => rv

def RuleSetRule.oneOf {π : Type} :
    RuleSetRule π → Option (List (RuleSetRule π))
  | .mk _ _ _ _ _ _ _ _ _ _ _ _ oo => oo

def RawModuleRule.test {π ρ : Type} :
    RawModuleRule π ρ → Option RawRuleSetCondition
  | .mk t _ _ _ _ _ _ _ _ _ _ _ _ => t

def RawModuleRule.include_ {π ρ : Type} :
    RawModuleRule π ρ → Option RawRuleSetCondition
  | .mk _ i _ _ _ _ _ _ _ _ _ _ _ => i

def RawModuleRule.exclude {π ρ : Type} :
    RawModuleRule π ρ → Option RawRuleSetCondition
  | .mk _ _ e _ _ _ _ _ _ _ _ _ _ => e

def RawModuleRule.resource {π ρ : Type} :
    RawModuleRule π ρ → Option RawRuleSetCondition
  | .mk _ _ _ r _ _ _ _ _ _ _ _ _ => r

def RawModuleRule.resourceQuery {π ρ : Type} :
    RawModuleRule π ρ → Option RawRuleSetCondition
  | .mk _ _ _ _ rq _ _ _ _ _ _ _ _ => rq

def RawModuleRule.sideEffects {π ρ : Type} : RawModuleRule π ρ → Option Bool
  | .mk _ _ _ _ _ se _ _ _ _ _ _ _ => se

def RawModuleRule.use {π ρ : Type} : RawModuleRule π ρ → ρ
  | .mk _ _ _ _ _ _ u _ _ _ _ _ _ => u

def RawModuleRule.type {π ρ : Type} : RawModuleRule π ρ → Option String
  | .mk _ _ _ _ _ _ _ ty _ _ _ _ _ => ty

def RawModuleRule.parser {π ρ : Type} : RawModuleRule π ρ → Option π
  | .mk _ _ _ _ _ _ _ _ p _ _ _ _ => p

def RawModuleRule.generator {π ρ : Type} : RawModuleRule π ρ → Option π
  | .mk _ _ _ _ _ _ _ _ _ g _ _ _ => g

def RawModuleRule.resolve {π ρ : Type} : RawModuleRule π ρ → Option π
  | .mk _ _ _ _ _ _ _ _ _ _ rv _ _ => rv

def RawModuleRule.issuer {π ρ : Type} :
    RawModuleRule π ρ → Option RawRuleSetCondition
  | .mk _ _ _ _ _ _ _ _ _ _ _ iss _ => iss

def RawModuleRule.oneOf {π ρ : Type} :
    RawModuleRule π ρ → Option (List (RawModuleRule π ρ))
  | .mk _ _ _ _ _ _ _ _ _ _ _ _ oo => oo

mutual
/-- `oneOf` nesting depth of a rule tree. -/
def RuleSetRule.depth {π : Type} : RuleSetRule π → Nat
  | .mk _ _ _ _ _ _ _ _ _ _ _ _ none => 0
  | .mk _ _ _ _ _ _ _ _ _ _ _ _ (some rs) => 1 + RuleSetRule.depthList rs
termination_by r => sizeOf r

def RuleSetRule.depthList {π : Type} : List (RuleSetRule π) → Nat
  | [] => 0
  | r :: rs => max r.depth (RuleSetRule.depthList rs)
termination_by rs => sizeOf rs
end

mutual
/-- `oneOf` nesting depth of a raw rule tree. -/
def RawModuleRule.depth {π ρ : Type} : RawModuleRule π ρ → Nat
  | .mk _ _ _ _ _ _ _ _ _ _ _ _ none => 0
  | .mk _ _ _ _ _ _ _ _ _ _ _ _ (some rs) => 1 + RawModuleRule.depthList rs
termination_by r => sizeOf r

def RawModuleRule.depthList {π ρ : Type} : List (RawModuleRule π ρ) → Nat
  | [] => 0
  | r :: rs => max r.depth (RawModuleRule.depthList rs)
termination_by rs => sizeOf rs
end

mutual
/-- Embedding of `getRawModuleRule`: each condition field goes through
the truthiness guard and the condition encoder, `sideEffects`, `type`,
`parser`, `generator` and `resolve` pass through unchanged, `use` is
delegated to the opaque collaborator `uses` (standing for
`createRawModuleRuleUses(rule.use ?? [], options)`), and `oneOf` is
mapped element-wise through the compiler itself. -/
def getRawModuleRule {π ρ : Type} (uses : Option π → ρ) :
    RuleSetRule π → Except String (RawModuleRule π ρ)
  | .mk t i e r rq iss se u ty p g rv oneOf => do
      let t' ← encodeCondField t
      let i' ← encodeCondField i
      let e' ← encodeCondField e
      let r' ← encodeCondField r
      let rq' ← encodeCondField rq
      let iss' ← encodeCondField iss
      let oneOf' ← encodeOneOf uses oneOf
      pure (.mk t' i' e' r' rq' se (uses u) ty p g rv iss' oneOf')
termination_by r => sizeOf r

/-- `rule.oneOf ? rule.oneOf.map(i => getRawModuleRule(i, options)) :
undefined` — an absent `oneOf` stays absent, a present list (even
empty, which is truthy in JS) is compiled element-wise. -/
def encodeOneOf {π ρ : Type} (uses : Option π → ρ) :
    Option (List (RuleSetRule π)) →
      Except String (Option (List (RawModuleRule π ρ)))
  | none => .ok none
  | some rs => (mapRawModuleRules uses rs).map some
termination_by oo => sizeOf oo

/-- `rule.oneOf.map(i => getRawModuleRule(i, options))`, with the first
thrown error propagating. -/
def mapRawModuleRules {π ρ : Type} (uses : Option π → ρ) :
    List (RuleSetRule π) → Except String (List (RawModuleRule π ρ))
  | [] => .ok []
  | r :: rs => do
      let r' ← getRawModuleRule uses r
      let rs' ← mapRawModuleRules uses rs
      pure (r' :: rs')
termination_by rs => sizeOf rs
end

/-- Normalized module options: the (possibly absent, when the
defaulting stage did not run) default-rule list, the user rules, and
the passthrough parser config. -/
structure ModuleOptionsNormalized (π : Type) : Type where
  defaultRules : Option (List (RuleSetRule π))
  rules : List (RuleSetRule π)
  parser : Option π

/-- The raw module options: the compiled rule list and the passthrough
parser config. -/
structure RawModuleOptions (π ρ : Type) : Type where
  rules : List (RawModuleRule π ρ)
  parser : Option π

/-- The message of the `assert` guarding `module.defaultRules`. -/
def moduleDefaultRulesMessage : String :=
  "module.defaultRules should not be nil after defaults"

/-- Embedding of `getRawModule`: assert the default rules are present,
concatenate them with the user rules in that order, compile each rule,
and return the result with the passthrough parser config. -/
def getRawModule {π ρ : Type} (uses : Option π → ρ)
    (m : ModuleOptionsNormalized π) :
    Except String (RawModuleOptions π ρ) :=
  match m.defaultRules with
  | none => .error moduleDefaultRulesMessage
  | some ds => do
      let rules ← mapRawModuleRules uses (ds ++ m.rules)
      pure (⟨rules, m.parser⟩ : RawModuleOptions π ρ)

/-- Relation between an input condition field and its compiled output:
the output is present exactly when the input is present and truthy, and
a present truthy input is encoded via the condition encoder. -/
def condFieldRelated (x : Option RuleSetCondition)
    (y : Option RawRuleSetCondition) : Prop :=
  (y.isSome = true ↔ ∃ c, x = some c ∧ c.truthy = true) ∧
  (∀ c, x = some c → c.truthy = true →
    ∃ rc, getRawRuleSetCondition c = .ok rc ∧ y = some rc)

/-- A JS RegExp value, as read by the split-chunks encoder: its
`source` text and its `flags`. -/
structure JsRegExp : Type where
  source : String
  flags : String

/-- One named split-chunks cache group (the fields the adapter reads). -/
structure OptimizationSplitChunksCacheGroup : Type where
  test : Option JsRegExp
  name : Option String
  priority : Option Int
  minChunks : Option Nat
  chunks : Option String

/-- The split-chunks options read by the adapter: the optional named
cache-group map (an ordered key-value list, as `Object.entries`
produces) plus the passthrough knobs. -/
structure OptimizationSplitChunksOptions : Type where
  cacheGroups : Option (List (String × OptimizationSplitChunksCacheGroup))
  chunks : Option String
  maxAsyncRequests : Option Nat
  maxInitialRequests : Option Nat
  minChunks : Option Nat
  minSize : Option Nat
  enforceSizeThreshold : Option Nat
  minRemainingSize : Option Nat

/-- The raw cache group handed to the engine: exactly the five
documented fields. -/
structure RawCacheGroupOptions : Type where
  test : Option String
  name : Option String
  priority : Option Int
  minChunks : Option Nat
  chunks : Option String

/-- The raw split-chunks record: the cache-group map is always present
(defaulted to the empty record when the input map is absent). -/
structure RawSplitChunksOptions : Type where
  cacheGroups : List (String × RawCacheGroupOptions)
  chunks : Option String
  maxAsyncRequests : Option Nat
  maxInitialRequests : Option Nat
  minChunks : Option Nat
  minSize : Option Nat
  enforceSizeThreshold : Option Nat
  minRemainingSize : Option Nat

/-- Embedding of `getRawSplitChunksOptions`: each named cache group
maps to a record with the pattern source text (`group.test ?
group.test.source : undefined` — a present RegExp is always truthy),
name, priority, minimum-chunks and chunk-selection mode; an absent
cache-group map yields the empty record `{}`. -/
def getRawSplitChunksOptions
    (sc : OptimizationSplitChunksOptions) : RawSplitChunksOptions :=
  ⟨(match sc.cacheGroups with
    | none => []
    | some gs =>
        gs.map (fun kg =>
          (kg.1, (⟨kg.2.test.map JsRegExp.source, kg.2.name, kg.2.priority,
            kg.2.minChunks, kg.2.chunks⟩ : RawCacheGroupOptions)))),
    sc.chunks, sc.maxAsyncRequests, sc.maxInitialRequests, sc.minChunks,
    sc.minSize, sc.enforceSizeThreshold, sc.minRemainingSize⟩

/-- The `optimization.sideEffects` value: a boolean or the string
`"flag"`. -/
inductive SideEffectsValue : Type where
  | bool : Bool → SideEffectsValue
  | flag : SideEffectsValue

/-- `String(x)` on a sideEffects value. -/
def SideEffectsValue.jsString : SideEffectsValue → String
  | .bool true => "true"
  | .bool false => "false"
  | .flag => "flag"

/-- The optimization options read by the adapter. -/
structure Optimization : Type where
  moduleIds : Option String
  removeAvailableModules : Option Bool
  sideEffects : Option SideEffectsValue
  splitChunks : Option OptimizationSplitChunksOptions

/-- The raw optimization record. -/
structure RawOptimization : Type where
  splitChunks : Option RawSplitChunksOptions
  moduleIds : String
  removeAvailableModules : Bool
  sideEffects : String

/-- The message of the `assert` guarding the optimization fields. -/
def optimizationAssertMessage : String :=
  "optimization.moduleIds, optimization.removeAvailableModules, optimization.sideEffects should not be nil after defaults"

/-- Embedding of `getRawOptimization`: assert the three
required-after-defaulting fields, stringify `sideEffects`, and encode
split-chunks only when present (`optimization.splitChunks ?
getRawSplitChunksOptions(...) : undefined` — a present options object
is always truthy). -/
def getRawOptimization (o : Optimization) :
    Except String RawOptimization :=
  match o.moduleIds, o.removeAvailableModules, o.sideEffects with
  | some mid, some ram, some se =>
      .ok ⟨o.splitChunks.map getRawSplitChunksOptions, mid, ram,
        se.jsString⟩
  | _, _, _ => .error optimizationAssertMessage

/-- The runtime value of an entry's `runtime` option: a runtime name or
`false` (which collapses to "no runtime"). -/
inductive EntryRuntime : Type where
  | name : String → EntryRuntime
  | fls : EntryRuntime

/-- One normalized entry description, as the entry encoder reads it.
The `import` list may be absent at runtime: the source's non-null
assertion `entry[key].import!` is a compile-time cast only, with no
runtime check. -/
structure EntryDescriptionNormalized : Type where
  import_ : Option (List String)
  runtime : Option EntryRuntime

/-- One raw entry item. -/
structure RawEntryItem : Type where
  import_ : Option (List String)
  runtime : Option String

/-- `runtime === false ? undefined : runtime` on an entry's runtime. -/
def rawEntryRuntime : Option EntryRuntime → Option String
  | some (.name s) => some s
  | some .fls => none
  | none => none

/-- Embedding of `getRawEntry`: map each named entry to its import list
and optional runtime name, with no validation of any kind — an absent
list of imports is passed through absent. The entry map is an ordered
key-value list, as `Object.keys` iteration produces. -/
def getRawEntry (entry : List (String × EntryDescriptionNormalized)) :
    List (String × RawEntryItem) :=
  entry.map (fun kd =>
    (kd.1, (⟨kd.2.import_, rawEntryRuntime kd.2.runtime⟩ : RawEntryItem)))

/-- The experiments options read by the adapter. -/
structure Experiments : Type where
  lazyCompilation : Option Bool
  incrementalRebuild : Option Bool

/-- The raw experiments record. -/
structure RawExperiments : Type where
  lazyCompilation : Bool
  incrementalRebuild : Bool

/-- Node's bare `assert(value)` (no message argument) throws an
AssertionError whose default message does not name any field; modelled
by this fixed string. -/
def assertionFailedMessage : String := "Assertion failed"

/-- Embedding of `getRawExperiments`: a bare assert that
`lazyCompilation` and `incrementalRebuild` are present, then
passthrough. -/
def getRawExperiments (e : Experiments) : Except String RawExperiments :=
  match e.lazyCompilation, e.incrementalRebuild with
  | some l, some i => .ok ⟨l, i⟩
  | _, _ => .error assertionFailedMessage

/-- One snapshot section (`resolve` or `module`): timestamp and hash
flags. -/
structure SnapshotSectionOptions : Type where
  timestamp : Option Bool
  hash : Option Bool

/-- The snapshot options read by the adapter. -/
structure SnapshotOptions : Type where
  resolve : Option SnapshotSectionOptions
  module : Option SnapshotSectionOptions

/-- One raw snapshot section. -/
structure RawSnapshotSection : Type where
  timestamp : Bool
  hash : Bool

/-- The raw snapshot record. -/
structure RawSnapshotOptions : Type where
  resolve : RawSnapshotSection
  module : RawSnapshotSection

/-- Embedding of `getRawSnapshotOptions`: two bare asserts (sections
present, then all four flags present), then passthrough. -/
def getRawSnapshotOptions (s : SnapshotOptions) :
    Except String RawSnapshotOptions :=
  match s.resolve, s.module with
  | some r, some m =>
      (match r.timestamp, r.hash, m.timestamp, m.hash with
      | some rt, some rh, some mt, some mh => .ok ⟨⟨rt, rh⟩, ⟨mt, mh⟩⟩
      | _, _, _, _ => .error assertionFailedMessage)
  | _, _ => .error assertionFailedMessage

/-- The runtime value of `node.__dirname`: a boolean or a string mode. -/
inductive NodeDirnameValue : Type where
  | bool : Bool → NodeDirnameValue
  | str : String → NodeDirnameValue

/-- `String(x)` on a `__dirname` value. -/
def NodeDirnameValue.jsString : NodeDirnameValue → String
  | .bool true => "true"
  | .bool false => "false"
  | .str s => s

/-- The node options read by the adapter. -/
structure Node : Type where
  __dirname : Option NodeDirnameValue

/-- The raw node record. -/
structure RawNode : Type where
  dirname : String

/-- Embedding of `getRawNode`: a bare assert that `__dirname` is
present, then stringify. -/
def getRawNode (n : Node) : Except String RawNode :=
  match n.__dirname with
  | some v => .ok ⟨v.jsString⟩
  | none => .error assertionFailedMessage

/-- The normalized output options read by the adapter. Every field but
`library` is required after defaulting; `library` is an opaque optional
passthrough, modelled as an optional string. -/
structure OutputNormalized : Type where
  path : Option String
  publicPath : Option String
  assetModuleFilename : Option String
  filename : Option String
  chunkFilename : Option String
  cssFilename : Option String
  cssChunkFilename : Option String
  uniqueName : Option String
  library : Option String
  strictModuleErrorHandling : Option Bool

/-- The raw output record, field order as in the source literal. -/
structure RawOutput : Type where
  path : String
  publicPath : String
  assetModuleFilename : String
  filename : String
  chunkFilename : String
  cssFilename : String
  cssChunkFilename : String
  uniqueName : String
  library : Option String
  strictModuleErrorHandling : Bool

/-- The message of the `assert` guarding the output fields — generic,
it does not name which field is missing. -/
def outputAssertMessage : String :=
  "fields should not be nil after defaults"

/-- Embedding of `getRawOutput`: assert that the nine
required-after-defaulting fields are present (with the generic
message), then pass everything through, `library` included. -/
def getRawOutput (o : OutputNormalized) : Except String RawOutput :=
  match o.path, o.publicPath, o.assetModuleFilename, o.filename,
    o.chunkFilename, o.cssFilename, o.cssChunkFilename, o.uniqueName,
    o.strictModuleErrorHandling with
  | some p, some pp, some amf, some f, some cf, some cssf, some csscf,
      some un, some smeh =>
      .ok ⟨p, pp, amf, f, cf, cssf, csscf, un, o.library, smeh⟩
  | _, _, _, _, _, _, _, _, _ => .error outputAssertMessage

/-- A target value: a single text value or a list of targets. The
input to the target encoder may also be `undefined` (absent). -/
inductive Target : Type where
  | str : String → Target
  | list : List String → Target

/-- Embedding of `getRawTarget`: `if (!target) return []` — an absent
target and the (falsy) empty-string target yield the empty list; a
non-empty string yields a single-element list; a list (always truthy,
even empty) passes through. No field is validated and no error can be
raised. -/
def getRawTarget : Option Target → List String
  | none => []
  | some (.str s) => if s == "" then [] else [s]
  | some (.list xs) => xs

/-- An externals value: a single text value or a record (otherwise the
source passes the value through as-is; the record constructor stands
for the passthrough shapes). -/
inductive Externals : Type where
  | str : String → Externals
  | record : List (String × String) → Externals

/-- Embedding of `getRawExternals`: a single text value expands to the
one-entry self-mapped record, anything else passes through unchanged.
No field is validated and no error can be raised. -/
def getRawExternals : Externals → List (String × String)
  | .str s => [(s, s)]
  | .record r => r

theorem sizeOf_option_pos {α : Type _} [SizeOf α] (o : Option α) :
    0 < sizeOf o := by
  cases o <;> simp_arith

theorem except_bind_ok {ε α β : Type _} {x : Except ε α}
    {f : α → Except ε β} {b : β} :
    x >>= f = Except.ok b ↔ ∃ a, x = Except.ok a ∧ f a = Except.ok b := by
  cases x <;> simp [Bind.bind, Except.bind]

theorem except_bind_error {ε α β : Type _} {x : Except ε α}
    {f : α → Except ε β} {e : ε} :
    x >>= f = Except.error e ↔
      x = Except.error e ∨ ∃ a, x = Except.ok a ∧ f a = Except.error e := by
  cases x <;> simp [Bind.bind, Except.bind]

theorem except_map_ok {ε α β : Type _} {f : α → β} {x : Except ε α}
    {b : β} :
    Except.map f x = Except.ok b ↔ ∃ a, x = Except.ok a ∧ f a = b := by
  cases x <;> simp [Except.map]

theorem except_map_error {ε α β : Type _} {f : α → β} {x : Except ε α}
    {e : ε} :
    Except.map f x = Except.error e ↔ x = Except.error e := by
  cases x <;> simp [Except.map]

theorem except_pure_ok {ε α : Type _} {a b : α} :
    (pure a : Except ε α) = Except.ok b ↔ a = b := by
  simp [pure, Except.pure]

/-- Encoding a list of conditions succeeds with a list of the same
length whose i-th element is the encoding of the i-th input. -/
theorem encodeConditionList_ok (xs : List RuleSetCondition)
    (ys : List RawRuleSetCondition) (h : encodeConditionList xs = .ok ys) :
    ys.length = xs.length ∧
      ∀ i (hx : i < xs.length) (hy : i < ys.length),
        getRawRuleSetCondition (xs.get ⟨i, hx⟩) = .ok (ys.get ⟨i, hy⟩) := by
  induction xs generalizing ys with
  | nil =>
    simp only [encodeConditionList, Except.ok.injEq] at h
    subst h
    exact ⟨rfl, fun i hx _ => absurd hx (Nat.not_lt_zero i)⟩
  | cons c cs ih =>
    simp only [encodeConditionList] at h
    rw [except_bind_ok] at h
    obtain ⟨r, hr, h⟩ := h
    rw [except_bind_ok] at h
    obtain ⟨rs, hrs, h⟩ := h
    rw [except_pure_ok] at h
    subst h
    obtain ⟨hlen, helem⟩ := ih rs hrs
    refine ⟨by simp [hlen], ?_⟩
    intro i hx hy
    cases i with
    | zero => simpa using hr
    | succ j =>
      have hx' : j < cs.length := by simpa using hx
      have hy' : j < rs.length := by simpa using hy
      simpa using helem j hx' hy'

/-- C1: the condition encoder returns the tagged variant matching the
condition's shape — a RegExp encodes to the regexp variant carrying
only the pattern's source text (flags dropped), an array encodes to the
array variant whose elements are the element-wise encodings in the same
order, and a logical-combination object encodes to the logical variant
wrapping the encoded logical object in a single-element list. -/
theorem c1_condition_encoder_shapes :
    (∀ source flags,
        getRawRuleSetCondition (.regexp source flags) =
          .ok (.regexp source)) ∧
    (∀ xs ys, encodeConditionList xs = .ok ys →
        getRawRuleSetCondition (.arr xs) = .ok (.array ys) ∧
        ys.length = xs.length ∧
        ∀ i (hx : i < xs.length) (hy : i < ys.length),
          getRawRuleSetCondition (xs.get ⟨i, hx⟩) = .ok (ys.get ⟨i, hy⟩)) ∧
    (∀ a o n l, getRawRuleSetLogicalConditions a o n = .ok l →
        getRawRuleSetCondition (.logical a o n) = .ok (.logical [l])) := by
  refine ⟨fun source flags => by simp [getRawRuleSetCondition], ?_, ?_⟩
  · intro xs ys h
    refine ⟨?_, encodeConditionList_ok xs ys h⟩
    simp only [getRawRuleSetCondition]
    rw [h]
    rfl
  · intro a o n l h
    simp only [getRawRuleSetCondition]
    rw [h]
    rfl

theorem c1_condition_encoder_shapes_witness :
    getRawRuleSetCondition (.arr [.str "a"]) =
      .ok (.array [.string "a"]) ∧
    getRawRuleSetCondition (.logical none (some []) none) =
      .ok (.logical [.mk none (some []) none]) := by
  have h := c1_condition_encoder_shapes
  refine ⟨(h.2.1 [.str "a"] [.string "a"] ?_).1,
    h.2.2 none (some []) none (.mk none (some []) none) ?_⟩
  · simp only [encodeConditionList, getRawRuleSetCondition]
    rfl
  · simp only [getRawRuleSetLogicalConditions, encodeOptConditionList,
      encodeConditionList, encodeCondField]
    rfl

/-- C4: a condition that is none of the four recognized shapes (e.g.
null, a number or a boolean, whatever its truthiness) makes the
condition encoder fail with the descriptive unsupported-shape error —
it is never coerced to a best-guess encoding. -/
theorem c4_unsupported_shape_fails (t : Bool) :
    getRawRuleSetCondition (.other t) =
      .error conditionUnreachableMessage := by
  simp [getRawRuleSetCondition]

/-- Inversion for the optional-list encoder: absent stays absent, a
present list is encoded element-wise. -/
theorem encodeOptConditionList_ok {a : Option (List RuleSetCondition)}
    {ra : Option (List RawRuleSetCondition)}
    (h : encodeOptConditionList a = .ok ra) :
    (a = none → ra = none) ∧
      (∀ xs, a = some xs →
        ∃ ys, encodeConditionList xs = .ok ys ∧ ra = some ys) := by
  cases a with
  | none =>
    simp only [encodeOptConditionList, Except.ok.injEq] at h
    subst h
    exact ⟨fun _ => rfl, fun xs hx => Option.noConfusion hx⟩
  | some xs =>
    simp only [encodeOptConditionList] at h
    rw [except_map_ok] at h
    obtain ⟨ys, hys, h⟩ := h
    subst h
    refine ⟨fun hc => Option.noConfusion hc, ?_⟩
    intro xs' hx
    cases hx
    exact ⟨ys, hys, rfl⟩

/-- Inversion for the condition-field guard: the output is present
exactly when the input is present and truthy; an absent or falsy input
yields an absent output, a truthy one the recursive encoding. -/
theorem encodeCondField_ok {x : Option RuleSetCondition}
    {y : Option RawRuleSetCondition} (h : encodeCondField x = .ok y) :
    (y.isSome = true ↔ ∃ c, x = some c ∧ c.truthy = true) ∧
    (x = none → y = none) ∧
    (∀ c, x = some c → c.truthy = false → y = none) ∧
    (∀ c, x = some c → c.truthy = true →
      ∃ rc, getRawRuleSetCondition c = .ok rc ∧ y = some rc) := by
  cases x with
  | none =>
    simp only [encodeCondField, Except.ok.injEq] at h
    subst h
    refine ⟨by simp, fun _ => rfl, ?_, ?_⟩
    · intro c hc _
      exact Option.noConfusion hc
    · intro c hc _
      exact Option.noConfusion hc
  | some c =>
    simp only [encodeCondField] at h
    by_cases ht : c.truthy = true
    · rw [if_pos ht] at h
      rw [except_map_ok] at h
      obtain ⟨rc, hrc, h⟩ := h
      subst h
      refine ⟨⟨fun _ => ⟨c, rfl, ht⟩, fun _ => by simp⟩, ?_, ?_, ?_⟩
      · intro hc
        exact Option.noConfusion hc
      · intro c' hc hf
        cases hc
        rw [ht] at hf
        cases hf
      · intro c' hc _
        cases hc
        exact ⟨rc, hrc, rfl⟩
    · rw [if_neg ht] at h
      simp only [Except.ok.injEq] at h
      subst h
      refine ⟨⟨fun hy => by simp at hy, ?_⟩, fun _ => rfl,
        fun _ _ _ => rfl, ?_⟩
      · rintro ⟨c', hc, ht'⟩
        cases hc
        exact absurd ht' ht
      · intro c' hc ht'
        cases hc
        exact absurd ht' ht

/-- C5 counterexample: a logical object whose `not` key is present but
holds the empty string encodes to a record whose `not` key is absent —
the present `not` child is dropped by the truthiness guard, not encoded
recursively. -/
theorem c5_counterexample :
    getRawRuleSetLogicalConditions none none
        (some (RuleSetCondition.str "")) = .ok (.mk none none none) ∧
    (RawRuleSetLogicalConditions.mk none none none).not = none ∧
    (some (RuleSetCondition.str "") : Option RuleSetCondition) ≠ none := by
  refine ⟨?_, rfl, by simp⟩
  simp only [getRawRuleSetLogicalConditions, encodeOptConditionList,
    encodeCondField, RuleSetCondition.truthy]
  rfl

/-- C5 (amended): the logical encoder keeps absent keys absent (never
defaulting them to empty lists), encodes present `and` / `or` sub-lists
element-wise preserving order, and encodes a present `not` child
recursively only when it is truthy — a present-but-falsy (empty-string)
`not` child is omitted from the output. In particular an input with
only `or` yields an output whose `and` and `not` keys are absent. -/
theorem c5_logical_encoder_amended (a o : Option (List RuleSetCondition))
    (n : Option RuleSetCondition) (res : RawRuleSetLogicalConditions)
    (h : getRawRuleSetLogicalConditions a o n = .ok res) :
    (a = none → res.and = none) ∧
    (∀ xs, a = some xs → ∃ ys, encodeConditionList xs = .ok ys ∧
        res.and = some ys ∧ ys.length = xs.length) ∧
    (o = none → res.or = none) ∧
    (∀ xs, o = some xs → ∃ ys, encodeConditionList xs = .ok ys ∧
        res.or = some ys ∧ ys.length = xs.length) ∧
    (n = none → res.not = none) ∧
    (∀ c, n = some c → c.truthy = false → res.not = none) ∧
    (∀ c, n = some c → c.truthy = true →
        ∃ rc, getRawRuleSetCondition c = .ok rc ∧ res.not = some rc) := by
  unfold getRawRuleSetLogicalConditions at h
  rw [except_bind_ok] at h
  obtain ⟨ra, hra, h⟩ := h
  rw [except_bind_ok] at h
  obtain ⟨ro, hro, h⟩ := h
  rw [except_bind_ok] at h
  obtain ⟨rn, hrn, h⟩ := h
  rw [except_pure_ok] at h
  subst h
  obtain ⟨hanone, hasome⟩ := encodeOptConditionList_ok hra
  obtain ⟨honone, hosome⟩ := encodeOptConditionList_ok hro
  refine ⟨?_, ?_, ?_, ?_, ?_, ?_, ?_⟩
  · intro hn
    simp [RawRuleSetLogicalConditions.and, hanone hn]
  · intro xs hx
    obtain ⟨ys, hys, hra'⟩ := hasome xs hx
    exact ⟨ys, hys, by simp [RawRuleSetLogicalConditions.and, hra'],
      (encodeConditionList_ok xs ys hys).1⟩
  · intro hn
    simp [RawRuleSetLogicalConditions.or, honone hn]
  · intro xs hx
    obtain ⟨ys, hys, hro'⟩ := hosome xs hx
    exact ⟨ys, hys, by simp [RawRuleSetLogicalConditions.or, hro'],
      (encodeConditionList_ok xs ys hys).1⟩
  · intro hn
    obtain ⟨-, hnone, -, -⟩ := encodeCondField_ok hrn
    simp [RawRuleSetLogicalConditions.not, hnone hn]
  · intro c hc ht
    obtain ⟨-, -, hfalsy, -⟩ := encodeCondField_ok hrn
    simp [RawRuleSetLogicalConditions.not, hfalsy c hc ht]
  · intro c hc ht
    obtain ⟨-, -, -, htruthy⟩ := encodeCondField_ok hrn
    obtain ⟨rc, hrc, hy⟩ := htruthy c hc ht
    exact ⟨rc, hrc, by simp [RawRuleSetLogicalConditions.not, hy]⟩

theorem c5_logical_encoder_amended_witness :
    (RawRuleSetLogicalConditions.mk none
        (some [RawRuleSetCondition.string "x"]) none).and = none ∧
    (RawRuleSetLogicalConditions.mk none
        (some [RawRuleSetCondition.string "x"]) none).not = none := by
  have h := c5_logical_encoder_amended none (some [.str "x"]) none
    (.mk none (some [.string "x"]) none)
    (by
      simp only [getRawRuleSetLogicalConditions, encodeOptConditionList,
        encodeConditionList, encodeCondField, getRawRuleSetCondition]
      rfl)
  exact ⟨h.1 rfl, h.2.2.2.2.1 rfl⟩

/-- Compiling a list of rules succeeds with a list of the same length
whose i-th element is the compilation of the i-th input rule. -/
theorem mapRawModuleRules_ok {π ρ : Type} (uses : Option π → ρ)
    (rs : List (RuleSetRule π)) (rws : List (RawModuleRule π ρ))
    (h : mapRawModuleRules uses rs = .ok rws) :
    rws.length = rs.length ∧
      ∀ j (hr : j < rs.length) (hw : j < rws.length),
        getRawModuleRule uses (rs.get ⟨j, hr⟩) = .ok (rws.get ⟨j, hw⟩) := by
  induction rs generalizing rws with
  | nil =>
    simp only [mapRawModuleRules, Except.ok.injEq] at h
    subst h
    exact ⟨rfl, fun j hj _ => absurd hj (Nat.not_lt_zero j)⟩
  | cons r rs' ih =>
    simp only [mapRawModuleRules] at h
    rw [except_bind_ok] at h
    obtain ⟨r', hr, h⟩ := h
    rw [except_bind_ok] at h
    obtain ⟨rws', hrs, h⟩ := h
    rw [except_pure_ok] at h
    subst h
    obtain ⟨hlen, helem⟩ := ih rws' hrs
    refine ⟨by simp [hlen], ?_⟩
    intro j hj hw
    cases j with
    | zero => simpa using hr
    | succ k =>
      have hj' : k < rs'.length := by simpa using hj
      have hw' : k < rws'.length := by simpa using hw
      simpa using helem k hj' hw'

mutual
/-- A successful rule compilation preserves `oneOf` nesting depth. -/
theorem getRawModuleRule_depth {π ρ : Type} (uses : Option π → ρ)
    (r : RuleSetRule π) (raw : RawModuleRule π ρ)
    (h : getRawModuleRule uses r = .ok raw) :
    raw.depth = r.depth := by
  cases r with
  | mk t i e rr rq iss se u ty p g rv oneOf =>
    simp only [getRawModuleRule] at h
    rw [except_bind_ok] at h
    obtain ⟨t', _, h⟩ := h
    rw [except_bind_ok] at h
    obtain ⟨i', _, h⟩ := h
    rw [except_bind_ok] at h
    obtain ⟨e', _, h⟩ := h
    rw [except_bind_ok] at h
    obtain ⟨r', _, h⟩ := h
    rw [except_bind_ok] at h
    obtain ⟨rq', _, h⟩ := h
    rw [except_bind_ok] at h
    obtain ⟨iss', _, h⟩ := h
    rw [except_bind_ok] at h
    obtain ⟨oneOf', hoo, h⟩ := h
    rw [except_pure_ok] at h
    subst h
    cases oneOf with
    | none =>
      simp only [encodeOneOf, Except.ok.injEq] at hoo
      subst hoo
      simp [RuleSetRule.depth, RawModuleRule.depth]
    | some rs =>
      simp only [encodeOneOf] at hoo
      rw [except_map_ok] at hoo
      obtain ⟨rws, hrws, hoo⟩ := hoo
      subst hoo
      have hd := mapRawModuleRules_depth uses rs rws hrws
      simp [RuleSetRule.depth, RawModuleRule.depth, hd]
termination_by sizeOf r

/-- A successful rule-list compilation preserves the maximal `oneOf`
nesting depth of the list. -/
theorem mapRawModuleRules_depth {π ρ : Type} (uses : Option π → ρ)
    (rs : List (RuleSetRule π)) (rws : List (RawModuleRule π ρ))
    (h : mapRawModuleRules uses rs = .ok rws) :
    RawModuleRule.depthList rws = RuleSetRule.depthList rs := by
  cases rs with
  | nil =>
    simp only [mapRawModuleRules, Except.ok.injEq] at h
    subst h
    simp [RuleSetRule.depthList, RawModuleRule.depthList]
  | cons r rs' =>
    simp only [mapRawModuleRules] at h
    rw [except_bind_ok] at h
    obtain ⟨r', hr, h⟩ := h
    rw [except_bind_ok] at h
    obtain ⟨rws', hrs, h⟩ := h
    rw [except_pure_ok] at h
    subst h
    have h1 := getRawModuleRule_depth uses r r' hr
    have h2 := mapRawModuleRules_depth uses rs' rws' hrs
    simp [RuleSetRule.depthList, RawModuleRule.depthList, h1, h2]
termination_by sizeOf rs
end

/-- C2 counterexample: a rule whose `test` field is present but holds
the empty string compiles successfully to a raw rule whose `test` field
is absent — so a condition field can be present in the input yet absent
in the output, refuting presence-preservation as stated. -/
theorem c2_counterexample :
    (RuleSetRule.mk (some (RuleSetCondition.str "")) none none none none
        none none none none none none none none : RuleSetRule Nat).test =
      some (RuleSetCondition.str "") ∧
    getRawModuleRule (fun _ => (0 : Nat))
        (RuleSetRule.mk (some (RuleSetCondition.str "")) none none none
          none none none none none none none none none : RuleSetRule Nat) =
      .ok (RawModuleRule.mk none none none none none none 0 none none none
        none none none) ∧
    (RawModuleRule.mk none none none none none none (0 : Nat) none none
        none none none none : RawModuleRule Nat Nat).test = none := by
  refine ⟨rfl, ?_, rfl⟩
  simp only [getRawModuleRule, encodeCondField, encodeOneOf,
    RuleSetCondition.truthy]
  rfl

/-- C2 (amended): compiling a module rule is structure-preserving up to
JS truthiness: each of the six condition fields (test, include, exclude,
resource, resourceQuery, issuer) is present in the output exactly when
it is present with a truthy value in the input (a present empty-string
condition is omitted like an absent one; truthy conditions are encoded
via the condition encoder, never defaulted to null); the passthrough
fields keep their values; and a `oneOf` list encodes to a `oneOf` list
of the same length and order (absent `oneOf` stays absent), with the
`oneOf` nesting depth preserved. -/
theorem c2_module_rule_structure {π ρ : Type} (uses : Option π → ρ)
    (r : RuleSetRule π) (raw : RawModuleRule π ρ)
    (h : getRawModuleRule uses r = .ok raw) :
    condFieldRelated r.test raw.test ∧
    condFieldRelated r.include_ raw.include_ ∧
    condFieldRelated r.exclude raw.exclude ∧
    condFieldRelated r.resource raw.resource ∧
    condFieldRelated r.resourceQuery raw.resourceQuery ∧
    condFieldRelated r.issuer raw.issuer ∧
    raw.sideEffects = r.sideEffects ∧
    raw.use = uses r.use ∧
    raw.type = r.type ∧
    raw.parser = r.parser ∧
    raw.generator = r.generator ∧
    raw.resolve = r.resolve ∧
    (r.oneOf = none → raw.oneOf = none) ∧
    (∀ rs, r.oneOf = some rs → ∃ rws, raw.oneOf = some rws ∧
      rws.length = rs.length ∧
      ∀ j (hr : j < rs.length) (hw : j < rws.length),
        getRawModuleRule uses (rs.get ⟨j, hr⟩) = .ok (rws.get ⟨j, hw⟩)) ∧
    raw.depth = r.depth := by
  have hdepth := getRawModuleRule_depth uses r raw h
  cases r with
  | mk t i e rr rq iss se u ty p g rv oneOf =>
    simp only [getRawModuleRule] at h
    rw [except_bind_ok] at h
    obtain ⟨t', ht, h⟩ := h
    rw [except_bind_ok] at h
    obtain ⟨i', hi, h⟩ := h
    rw [except_bind_ok] at h
    obtain ⟨e', he, h⟩ := h
    rw [except_bind_ok] at h
    obtain ⟨r', hr, h⟩ := h
    rw [except_bind_ok] at h
    obtain ⟨rq', hrq, h⟩ := h
    rw [except_bind_ok] at h
    obtain ⟨iss', hiss, h⟩ := h
    rw [except_bind_ok] at h
    obtain ⟨oneOf', hoo, h⟩ := h
    rw [except_pure_ok] at h
    subst h
    refine ⟨?_, ?_, ?_, ?_, ?_, ?_, rfl, rfl, rfl, rfl, rfl, rfl,
      ?_, ?_, hdepth⟩
    · obtain ⟨hiff, -, -, htr⟩ := encodeCondField_ok ht
      exact ⟨hiff, htr⟩
    · obtain ⟨hiff, -, -, htr⟩ := encodeCondField_ok hi
      exact ⟨hiff, htr⟩
    · obtain ⟨hiff, -, -, htr⟩ := encodeCondField_ok he
      exact ⟨hiff, htr⟩
    · obtain ⟨hiff, -, -, htr⟩ := encodeCondField_ok hr
      exact ⟨hiff, htr⟩
    · obtain ⟨hiff, -, -, htr⟩ := encodeCondField_ok hrq
      exact ⟨hiff, htr⟩
    · obtain ⟨hiff, -, -, htr⟩ := encodeCondField_ok hiss
      exact ⟨hiff, htr⟩
    · intro h0
      simp only [RuleSetRule.oneOf] at h0
      subst h0
      simp only [encodeOneOf, Except.ok.injEq] at hoo
      subst hoo
      rfl
    · intro rs hrs
      simp only [RuleSetRule.oneOf] at hrs
      subst hrs
      simp only [encodeOneOf] at hoo
      rw [except_map_ok] at hoo
      obtain ⟨rws, hrws, hoo⟩ := hoo
      subst hoo
      obtain ⟨hlen, helem⟩ := mapRawModuleRules_ok uses rs rws hrws
      exact ⟨rws, rfl, hlen, helem⟩

theorem c2_module_rule_structure_witness :
    (RawModuleRule.mk (some (RawRuleSetCondition.string "x")) none none
        none none (some true) (0 : Nat) none none none none none
        (some ([] : List (RawModuleRule Nat Nat)))).sideEffects =
      (RuleSetRule.mk (some (RuleSetCondition.str "x")) none none none
          none none (some true) none none none none none
          (some ([] : List (RuleSetRule Nat))) : RuleSetRule Nat).sideEffects ∧
    (RawModuleRule.mk (some (RawRuleSetCondition.string "x")) none none
        none none (some true) (0 : Nat) none none none none none
        (some ([] : List (RawModuleRule Nat Nat)))).depth =
      (RuleSetRule.mk (some (RuleSetCondition.str "x")) none none none
          none none (some true) none none none none none
          (some ([] : List (RuleSetRule Nat))) : RuleSetRule Nat).depth := by
  have h := c2_module_rule_structure (fun _ => (0 : Nat))
    (RuleSetRule.mk (some (RuleSetCondition.str "x")) none none none
      none none (some true) none none none none none
      (some ([] : List (RuleSetRule Nat))))
    (RawModuleRule.mk (some (RawRuleSetCondition.string "x")) none none
      none none (some true) (0 : Nat) none none none none none
      (some ([] : List (RawModuleRule Nat Nat))))
    (by
      simp only [getRawModuleRule, encodeCondField, encodeOneOf,
        mapRawModuleRules, RuleSetCondition.truthy, getRawRuleSetCondition]
      rfl)
  exact ⟨h.2.2.2.2.2.2.1,
    h.2.2.2.2.2.2.2.2.2.2.2.2.2.2⟩

/-- Compiling a concatenated rule list is the concatenation of the
compiled sublists, in order. -/
theorem mapRawModuleRules_append {π ρ : Type} (uses : Option π → ρ)
    (ds us : List (RuleSetRule π)) (rds rus : List (RawModuleRule π ρ))
    (hd : mapRawModuleRules uses ds = .ok rds)
    (hu : mapRawModuleRules uses us = .ok rus) :
    mapRawModuleRules uses (ds ++ us) = .ok (rds ++ rus) := by
  induction ds generalizing rds with
  | nil =>
    simp only [mapRawModuleRules, Except.ok.injEq] at hd
    subst hd
    simpa using hu
  | cons d ds' ih =>
    simp only [mapRawModuleRules] at hd
    rw [except_bind_ok] at hd
    obtain ⟨d', hd1, hd⟩ := hd
    rw [except_bind_ok] at hd
    obtain ⟨rds', hd2, hd⟩ := hd
    rw [except_pure_ok] at hd
    subst hd
    have happ := ih rds' hd2
    simp only [List.cons_append, mapRawModuleRules]
    rw [except_bind_ok]
    refine ⟨d', hd1, ?_⟩
    rw [except_bind_ok]
    refine ⟨rds' ++ rus, happ, ?_⟩
    rw [except_pure_ok]

/-- C3: the compiled rule list of the module options is exactly the
compiled default rules followed by the compiled user rules, in that
order — never reordered, never deduplicated — and the parser config
passes through alongside it. -/
theorem c3_module_rule_order {π ρ : Type} (uses : Option π → ρ)
    (ds us : List (RuleSetRule π)) (parser : Option π)
    (rds rus : List (RawModuleRule π ρ))
    (hd : mapRawModuleRules uses ds = .ok rds)
    (hu : mapRawModuleRules uses us = .ok rus) :
    getRawModule uses (⟨some ds, us, parser⟩ : ModuleOptionsNormalized π) =
      .ok (⟨rds ++ rus, parser⟩ : RawModuleOptions π ρ) := by
  have happ := mapRawModuleRules_append uses ds us rds rus hd hu
  have hdef :
      getRawModule uses (⟨some ds, us, parser⟩ : ModuleOptionsNormalized π) =
        mapRawModuleRules uses (ds ++ us) >>= fun rules =>
          pure (⟨rules, parser⟩ : RawModuleOptions π ρ) := rfl
  rw [hdef, happ]
  rfl

theorem c3_module_rule_order_witness :
    getRawModule (fun _ => (0 : Nat))
        (⟨some [RuleSetRule.mk none none none none none none none none
            (some "d1") none none none none,
          RuleSetRule.mk none none none none none none none none
            (some "d2") none none none none],
          [RuleSetRule.mk none none none none none none none none
            (some "u1") none none none none], none⟩ :
          ModuleOptionsNormalized Nat) =
      .ok (⟨[RawModuleRule.mk none none none none none none 0 (some "d1")
            none none none none none,
          RawModuleRule.mk none none none none none none 0 (some "d2")
            none none none none none,
          RawModuleRule.mk none none none none none none 0 (some "u1")
            none none none none none], none⟩ :
          RawModuleOptions Nat Nat) := by
  have h := @c3_module_rule_order Nat Nat (fun _ => (0 : Nat))
    [RuleSetRule.mk none none none none none none none none (some "d1")
        none none none none,
      RuleSetRule.mk none none none none none none none none (some "d2")
        none none none none]
    [RuleSetRule.mk none none none none none none none none (some "u1")
        none none none none]
    none
    [RawModuleRule.mk none none none none none none 0 (some "d1") none
        none none none none,
      RawModuleRule.mk none none none none none none 0 (some "d2") none
        none none none none]
    [RawModuleRule.mk none none none none none none 0 (some "u1") none
        none none none none]
    (by
      simp only [mapRawModuleRules, getRawModuleRule, encodeCondField,
        encodeOneOf]
      rfl)
    (by
      simp only [mapRawModuleRules, getRawModuleRule, encodeCondField,
        encodeOneOf]
      rfl)
  simpa using h

mutual
/-- The only error the condition encoder can raise is the
unsupported-shape message. -/
theorem getRawRuleSetCondition_error (c : RuleSetCondition) (msg : String)
    (h : getRawRuleSetCondition c = .error msg) :
    msg = conditionUnreachableMessage := by
  cases c with
  | str s => simp [getRawRuleSetCondition] at h
  | regexp s f => simp [getRawRuleSetCondition] at h
  | arr elems =>
    simp only [getRawRuleSetCondition] at h
    rw [except_map_error] at h
    exact encodeConditionList_error elems msg h
  | logical a o n =>
    simp only [getRawRuleSetCondition] at h
    rw [except_map_error] at h
    exact getRawRuleSetLogicalConditions_error a o n msg h
  | other t =>
    simp only [getRawRuleSetCondition, Except.error.injEq] at h
    exact h.symm
termination_by sizeOf c

theorem encodeConditionList_error (cs : List RuleSetCondition)
    (msg : String) (h : encodeConditionList cs = .error msg) :
    msg = conditionUnreachableMessage := by
  cases cs with
  | nil => simp [encodeConditionList] at h
  | cons c cs' =>
    simp only [encodeConditionList] at h
    rw [except_bind_error] at h
    rcases h with h | ⟨r, hr, h⟩
    · exact getRawRuleSetCondition_error c msg h
    rw [except_bind_error] at h
    rcases h with h | ⟨rs, hrs, h⟩
    · exact encodeConditionList_error cs' msg h
    simp [pure, Except.pure] at h
termination_by sizeOf cs

theorem encodeOptConditionList_error (a : Option (List RuleSetCondition))
    (msg : String) (h : encodeOptConditionList a = .error msg) :
    msg = conditionUnreachableMessage := by
  cases a with
  | none => simp [encodeOptConditionList] at h
  | some xs =>
    simp only [encodeOptConditionList] at h
    rw [except_map_error] at h
    exact encodeConditionList_error xs msg h
termination_by sizeOf a

theorem encodeCondField_error (x : Option RuleSetCondition) (msg : String)
    (h : encodeCondField x = .error msg) :
    msg = conditionUnreachableMessage := by
  cases x with
  | none => simp [encodeCondField] at h
  | some c =>
    simp only [encodeCondField] at h
    by_cases ht : c.truthy = true
    · rw [if_pos ht] at h
      rw [except_map_error] at h
      exact getRawRuleSetCondition_error c msg h
    · rw [if_neg ht] at h
      simp at h
termination_by sizeOf x

theorem getRawRuleSetLogicalConditions_error
    (a o : Option (List RuleSetCondition)) (n : Option RuleSetCondition)
    (msg : String)
    (h : getRawRuleSetLogicalConditions a o n = .error msg) :
    msg = conditionUnreachableMessage := by
  unfold getRawRuleSetLogicalConditions at h
  rw [except_bind_error] at h
  rcases h with h | ⟨ra, hra, h⟩
  · exact encodeOptConditionList_error a msg h
  rw [except_bind_error] at h
  rcases h with h | ⟨ro, hro, h⟩
  · exact encodeOptConditionList_error o msg h
  rw [except_bind_error] at h
  rcases h with h | ⟨rn, hrn, h⟩
  · exact encodeCondField_error n msg h
  simp [pure, Except.pure] at h
termination_by sizeOf a + sizeOf o + sizeOf n
decreasing_by
  all_goals simp_wf
  · have ho := sizeOf_option_pos o
    have hn := sizeOf_option_pos n
    omega
  · have ha := sizeOf_option_pos a
    have hn := sizeOf_option_pos n
    omega
  · have ha := sizeOf_option_pos a
    omega
end

mutual
/-- The only error the rule compiler can raise is the condition
encoder's unsupported-shape message. -/
theorem getRawModuleRule_error {π ρ : Type} (uses : Option π → ρ)
    (r : RuleSetRule π) (msg : String)
    (h : getRawModuleRule uses r = .error msg) :
    msg = conditionUnreachableMessage := by
  cases r with
  | mk t i e rr rq iss se u ty p g rv oneOf =>
    simp only [getRawModuleRule] at h
    rw [except_bind_error] at h
    rcases h with h | ⟨t', ht, h⟩
    · exact encodeCondField_error t msg h
    rw [except_bind_error] at h
    rcases h with h | ⟨i', hi, h⟩
    · exact encodeCondField_error i msg h
    rw [except_bind_error] at h
    rcases h with h | ⟨e', he, h⟩
    · exact encodeCondField_error e msg h
    rw [except_bind_error] at h
    rcases h with h | ⟨r', hr, h⟩
    · exact encodeCondField_error rr msg h
    rw [except_bind_error] at h
    rcases h with h | ⟨rq', hrq, h⟩
    · exact encodeCondField_error rq msg h
    rw [except_bind_error] at h
    rcases h with h | ⟨iss', hiss, h⟩
    · exact encodeCondField_error iss msg h
    rw [except_bind_error] at h
    rcases h with h | ⟨oneOf', hoo, h⟩
    · exact encodeOneOf_error uses oneOf msg h
    simp [pure, Except.pure] at h
termination_by sizeOf r

theorem encodeOneOf_error {π ρ : Type} (uses : Option π → ρ)
    (oo : Option (List (RuleSetRule π))) (msg : String)
    (h : encodeOneOf (ρ := ρ) uses oo = .error msg) :
    msg = conditionUnreachableMessage := by
  cases oo with
  | none => simp [encodeOneOf] at h
  | some rs =>
    simp only [encodeOneOf] at h
    rw [except_map_error] at h
    exact mapRawModuleRules_error uses rs msg h
termination_by sizeOf oo

theorem mapRawModuleRules_error {π ρ : Type} (uses : Option π → ρ)
    (rs : List (RuleSetRule π)) (msg : String)
    (h : mapRawModuleRules (ρ := ρ) uses rs = .error msg) :
    msg = conditionUnreachableMessage := by
  cases rs with
  | nil => simp [mapRawModuleRules] at h
  | cons r rs' =>
    simp only [mapRawModuleRules] at h
    rw [except_bind_error] at h
    rcases h with h | ⟨r', hr, h⟩
    · exact getRawModuleRule_error uses r msg h
    rw [except_bind_error] at h
    rcases h with h | ⟨rws', hrs, h⟩
    · exact mapRawModuleRules_error uses rs' msg h
    simp [pure, Except.pure] at h
termination_by sizeOf rs
end

/-- The two error messages of the module compiler are distinct. -/
theorem messages_distinct :
    conditionUnreachableMessage ≠ moduleDefaultRulesMessage := by
  decide

/-- C6: when the default-rule list is absent the module compiler raises
the precondition-violation error (whatever the user rules are — no rule
is compiled); when it is present, that error is never raised (the only
error that can still arise is the condition encoder's distinct
unsupported-shape message). -/
theorem c6_default_rules_guard {π ρ : Type} (uses : Option π → ρ)
    (m : ModuleOptionsNormalized π) :
    (m.defaultRules = none →
      getRawModule (ρ := ρ) uses m = .error moduleDefaultRulesMessage) ∧
    (m.defaultRules.isSome = true →
      getRawModule (ρ := ρ) uses m ≠ .error moduleDefaultRulesMessage) := by
  obtain ⟨dr, rules, parser⟩ := m
  constructor
  · intro h0
    simp only at h0
    subst h0
    rfl
  · intro hs hcontra
    simp only [Option.isSome] at hs
    cases dr with
    | none => simp at hs
    | some ds =>
      have hbind :
          mapRawModuleRules uses (ds ++ rules) >>= (fun rls =>
            pure (⟨rls, parser⟩ : RawModuleOptions π ρ)) =
            .error moduleDefaultRulesMessage := hcontra
      rw [except_bind_error] at hbind
      rcases hbind with hb | ⟨rls, hok, hb⟩
      · exact messages_distinct
          (mapRawModuleRules_error uses (ds ++ rules) _ hb).symm
      · simp [pure, Except.pure] at hb

theorem c6_default_rules_guard_witness :
    getRawModule (fun _ => (0 : Nat))
        (⟨none, [], none⟩ : ModuleOptionsNormalized Nat) =
      .error moduleDefaultRulesMessage ∧
    getRawModule (fun _ => (0 : Nat))
        (⟨some [], [], none⟩ : ModuleOptionsNormalized Nat) ≠
      .error moduleDefaultRulesMessage := by
  constructor
  · exact (c6_default_rules_guard (fun _ => (0 : Nat))
      (⟨none, [], none⟩ : ModuleOptionsNormalized Nat)).1 rfl
  · exact (c6_default_rules_guard (fun _ => (0 : Nat))
      (⟨some [], [], none⟩ : ModuleOptionsNormalized Nat)).2 rfl

/-- C9: a module rule whose condition field is present but equal to the
empty string compiles to a raw rule with that field absent (the
truthiness guard treats it as absent rather than encoding it as a
string-variant condition), and a logical object whose `not` field is
the empty string encodes to a record whose `not` key is absent. -/
theorem c9_empty_string_conditions_omitted {π ρ : Type}
    (uses : Option π → ρ) (r : RuleSetRule π) (raw : RawModuleRule π ρ)
    (h : getRawModuleRule uses r = .ok raw) :
    (r.test = some (.str "") → raw.test = none) ∧
    (r.include_ = some (.str "") → raw.include_ = none) ∧
    (r.exclude = some (.str "") → raw.exclude = none) ∧
    (r.resource = some (.str "") → raw.resource = none) ∧
    (r.resourceQuery = some (.str "") → raw.resourceQuery = none) ∧
    (r.issuer = some (.str "") → raw.issuer = none) ∧
    (∀ a o res,
      getRawRuleSetLogicalConditions a o (some (.str "")) = .ok res →
        res.not = none) := by
  have hempty : (RuleSetCondition.str "").truthy = false := rfl
  cases r with
  | mk t i e rr rq iss se u ty p g rv oneOf =>
    simp only [getRawModuleRule] at h
    rw [except_bind_ok] at h
    obtain ⟨t', ht, h⟩ := h
    rw [except_bind_ok] at h
    obtain ⟨i', hi, h⟩ := h
    rw [except_bind_ok] at h
    obtain ⟨e', he, h⟩ := h
    rw [except_bind_ok] at h
    obtain ⟨r', hr, h⟩ := h
    rw [except_bind_ok] at h
    obtain ⟨rq', hrq, h⟩ := h
    rw [except_bind_ok] at h
    obtain ⟨iss', hiss, h⟩ := h
    rw [except_bind_ok] at h
    obtain ⟨oneOf', hoo, h⟩ := h
    rw [except_pure_ok] at h
    subst h
    refine ⟨?_, ?_, ?_, ?_, ?_, ?_, ?_⟩
    · intro hf
      exact (encodeCondField_ok ht).2.2.1 _ hf hempty
    · intro hf
      exact (encodeCondField_ok hi).2.2.1 _ hf hempty
    · intro hf
      exact (encodeCondField_ok he).2.2.1 _ hf hempty
    · intro hf
      exact (encodeCondField_ok hr).2.2.1 _ hf hempty
    · intro hf
      exact (encodeCondField_ok hrq).2.2.1 _ hf hempty
    · intro hf
      exact (encodeCondField_ok hiss).2.2.1 _ hf hempty
    · intro a o res hres
      unfold getRawRuleSetLogicalConditions at hres
      rw [except_bind_ok] at hres
      obtain ⟨ra, hra, hres⟩ := hres
      rw [except_bind_ok] at hres
      obtain ⟨ro, hro, hres⟩ := hres
      rw [except_bind_ok] at hres
      obtain ⟨rn, hrn, hres⟩ := hres
      rw [except_pure_ok] at hres
      subst hres
      have := (encodeCondField_ok hrn).2.2.1 _ rfl hempty
      simp [RawRuleSetLogicalConditions.not, this]

theorem c9_empty_string_conditions_omitted_witness :
    (RawModuleRule.mk none none none none none none (0 : Nat) none none
        none none none none : RawModuleRule Nat Nat).test = none ∧
    (RawModuleRule.mk none none none none none none (0 : Nat) none none
        none none none none : RawModuleRule Nat Nat).issuer = none := by
  have h := @c9_empty_string_conditions_omitted Nat Nat (fun _ => (0 : Nat))
    (RuleSetRule.mk (some (RuleSetCondition.str ""))
      (some (RuleSetCondition.str "")) (some (RuleSetCondition.str ""))
      (some (RuleSetCondition.str "")) (some (RuleSetCondition.str ""))
      (some (RuleSetCondition.str "")) none none none none none none none)
    (RawModuleRule.mk none none none none none none 0 none none none none
      none none)
    (by
      simp only [getRawModuleRule, encodeCondField, encodeOneOf,
        RuleSetCondition.truthy]
      rfl)
  exact ⟨h.1 rfl, h.2.2.2.2.2.1 rfl⟩

/-- C8: with the three required optimization fields present, an absent
split-chunks configuration yields an absent raw split-chunks field (not
an empty record), while a present one yields the encoded record; and
when the cache-group map is present, the output has exactly one entry
per named group, in order, each carrying exactly the five documented
fields (pattern source text if present, name, priority, minimum-chunks,
chunk-selection mode). -/
theorem c8_split_chunks_encoding (mid : String) (ram : Bool)
    (se : SideEffectsValue) :
    (getRawOptimization ⟨some mid, some ram, some se, none⟩ =
      .ok ⟨none, mid, ram, se.jsString⟩) ∧
    (∀ scv, getRawOptimization ⟨some mid, some ram, some se, some scv⟩ =
      .ok ⟨some (getRawSplitChunksOptions scv), mid, ram, se.jsString⟩) ∧
    (∀ scv groups, scv.cacheGroups = some groups →
      (getRawSplitChunksOptions scv).cacheGroups =
        groups.map (fun kg =>
          (kg.1, (⟨kg.2.test.map JsRegExp.source, kg.2.name, kg.2.priority,
            kg.2.minChunks, kg.2.chunks⟩ : RawCacheGroupOptions)))) := by
  refine ⟨rfl, fun scv => rfl, ?_⟩
  intro scv groups hg
  simp only [getRawSplitChunksOptions, hg]

theorem c8_split_chunks_encoding_witness :
    (getRawSplitChunksOptions
        ⟨some [("vendors",
          ⟨some ⟨"node_modules", "i"⟩, some "vendors", some 1, some 2,
            some "all"⟩)], none, none, none, none, none, none,
          none⟩).cacheGroups =
      [("vendors", ⟨some "node_modules", some "vendors", some 1, some 2,
        some "all"⟩)] := by
  have h := (c8_split_chunks_encoding "named" true .flag).2.2
    ⟨some [("vendors",
      ⟨some ⟨"node_modules", "i"⟩, some "vendors", some 1, some 2,
        some "all"⟩)], none, none, none, none, none, none, none⟩
    [("vendors",
      ⟨some ⟨"node_modules", "i"⟩, some "vendors", some 1, some 2,
        some "all"⟩)]
    rfl
  simpa using h

/-- C10: a split-chunks configuration that is present but has no
cache-group map encodes to a record whose cache-group field is the
empty record `{}` (present and empty) — the opposite convention from
the absent-whole-section case, where the raw split-chunks field itself
is absent. -/
theorem c10_absent_cache_groups_empty
    (sc : OptimizationSplitChunksOptions) (h : sc.cacheGroups = none) :
    getRawSplitChunksOptions sc =
      ⟨[], sc.chunks, sc.maxAsyncRequests, sc.maxInitialRequests,
        sc.minChunks, sc.minSize, sc.enforceSizeThreshold,
        sc.minRemainingSize⟩ := by
  simp only [getRawSplitChunksOptions, h]

theorem c10_absent_cache_groups_empty_witness :
    getRawSplitChunksOptions
        ⟨none, some "all", some 5, none, some 1, none, none, none⟩ =
      ⟨[], some "all", some 5, none, some 1, none, none, none⟩ := by
  exact c10_absent_cache_groups_empty
    ⟨none, some "all", some 5, none, some 1, none, none, none⟩ rfl

/-- C7 counterexample: the entry encoder performs no validation at all
— an entry whose required-after-defaulting `import` list is absent is
encoded without any error, the absent import passed through rather than
failing fast. -/
theorem c7_counterexample :
    getRawEntry [("main", ⟨none, none⟩)] = [("main", ⟨none, none⟩)] := rfl

/-- C7 (amended): of the seven scalar section encoders, output,
snapshot, experiments and node validate their required-after-defaulting
fields and fail fast when any is absent, but no failure message names
the missing field(s) — output asserts with only the generic message
and the snapshot, experiments and node asserts carry no message at all;
the target and externals encoders have no required-after-defaulting
fields and can never fail; and the entry encoder performs no validation
at all: it encodes every entry unconditionally, passing an absent
`import` list through absent instead of failing fast. -/
theorem c7_section_guards :
    (∀ e : Experiments,
      (∃ raw, getRawExperiments e = .ok raw) ↔
        (e.lazyCompilation.isSome = true ∧
          e.incrementalRebuild.isSome = true)) ∧
    (∀ e : Experiments,
      e.lazyCompilation = none ∨ e.incrementalRebuild = none →
        getRawExperiments e = .error assertionFailedMessage) ∧
    (∀ n : Node,
      (∃ raw, getRawNode n = .ok raw) ↔ n.__dirname.isSome = true) ∧
    (∀ s : SnapshotOptions,
      (∃ raw, getRawSnapshotOptions s = .ok raw) ↔
        (∃ r m, s.resolve = some r ∧ s.module = some m ∧
          r.timestamp.isSome = true ∧ r.hash.isSome = true ∧
          m.timestamp.isSome = true ∧ m.hash.isSome = true)) ∧
    (∀ ent, (getRawEntry ent).length = ent.length) ∧
    (∀ ent (j : Nat), (getRawEntry ent)[j]? = (ent[j]?).map
      (fun kd : String × EntryDescriptionNormalized =>
        (kd.1, (⟨kd.2.import_, rawEntryRuntime kd.2.runtime⟩ :
          RawEntryItem)))) ∧
    (∀ p pp amf f cf cssf csscf un lib smeh,
      getRawOutput ⟨some p, some pp, some amf, some f, some cf,
          some cssf, some csscf, some un, lib, some smeh⟩ =
        .ok ⟨p, pp, amf, f, cf, cssf, csscf, un, lib, smeh⟩) ∧
    (∀ o : OutputNormalized,
      o.path = none ∨ o.publicPath = none ∨
        o.assetModuleFilename = none ∨ o.filename = none ∨
        o.chunkFilename = none ∨ o.cssFilename = none ∨
        o.cssChunkFilename = none ∨ o.uniqueName = none ∨
        o.strictModuleErrorHandling = none →
      getRawOutput o = .error outputAssertMessage) ∧
    (getRawTarget none = [] ∧
      (∀ s, s ≠ "" → getRawTarget (some (Target.str s)) = [s]) ∧
      (∀ xs, getRawTarget (some (Target.list xs)) = xs)) ∧
    ((∀ s, getRawExternals (Externals.str s) = [(s, s)]) ∧
      (∀ r, getRawExternals (Externals.record r) = r)) := by
  refine ⟨?_, ?_, ?_, ?_, ?_, ?_, ?_, ?_, ?_, ?_⟩
  · intro e
    obtain ⟨lc, ir⟩ := e
    cases lc <;> cases ir <;> simp [getRawExperiments]
  · intro e he
    obtain ⟨lc, ir⟩ := e
    cases lc <;> cases ir
    · rfl
    · rfl
    · rfl
    · rcases he with he | he <;> exact absurd he (by simp)
  · intro n
    obtain ⟨d⟩ := n
    cases d <;> simp [getRawNode]
  · intro s
    obtain ⟨res, mod⟩ := s
    cases res with
    | none => simp [getRawSnapshotOptions]
    | some r =>
      cases mod with
      | none => simp [getRawSnapshotOptions]
      | some m =>
        obtain ⟨rt, rh⟩ := r
        obtain ⟨mt, mh⟩ := m
        cases rt <;> cases rh <;> cases mt <;> cases mh <;>
          simp [getRawSnapshotOptions]
  · intro ent
    simp [getRawEntry]
  · intro ent j
    simp [getRawEntry]
  · intro p pp amf f cf cssf csscf un lib smeh
    rfl
  · intro o h
    obtain ⟨p, pp, amf, f, cf, cssf, csscf, un, lib, smeh⟩ := o
    cases p <;> cases pp <;> cases amf <;> cases f <;> cases cf <;>
      cases cssf <;> cases csscf <;> cases un <;> cases smeh <;>
      first
        | rfl
        | (exfalso
           rcases h with h | h | h | h | h | h | h | h | h <;> simp at h)
  · refine ⟨rfl, ?_, fun xs => rfl⟩
    intro s hs
    simp [getRawTarget, hs]
  · exact ⟨fun s => rfl, fun r => rfl⟩

theorem c4_unsupported_shape_fails_witness :
    getRawRuleSetCondition (.other true) =
      .error conditionUnreachableMessage :=
  c4_unsupported_shape_fails true

theorem c7_section_guards_witness :
    getRawExperiments ⟨none, some true⟩ =
      .error assertionFailedMessage ∧
    getRawOutput ⟨none, some "/", some "asset", some "main.js",
        some "chunk.js", some "main.css", some "chunk.css", some "app",
        none, some true⟩ = .error outputAssertMessage ∧
    getRawTarget (some (Target.str "web")) = ["web"] :=
  ⟨c7_section_guards.2.1 ⟨none, some true⟩ (Or.inl rfl),
    c7_section_guards.2.2.2.2.2.2.2.1
      ⟨none, some "/", some "asset", some "main.js", some "chunk.js",
        some "main.css", some "chunk.css", some "app", none, some true⟩
      (Or.inl rfl),
    c7_section_guards.2.2.2.2.2.2.2.2.1.2.1 "web" (by simp)⟩

end Rspack
